import Mathlib

/-!
Verification of the automatic-highlight-reel-generator pipeline.

The repository ships the CDK infrastructure stack (`lib/highlight-processor-stack.ts`),
the processing configuration (`video-processing/config.yaml`), the container build
(`video-processing/Dockerfile`) and documentation.  The Python processing script
(`main.py`, holding the Timestamp Mapper, Event Interval Constructor and Clip
Assembler) is referenced by the Dockerfile and the stack but is not part of the
sources; those components are modelled here from the specification, faithfully
following its words.  Time arithmetic is modelled in exact rational seconds.
-/

namespace HighlightReel

/-- Modelled from the spec: `FrameRecord` carries an analysis-frame index, the
timestamp on the original timeline, the classification label (`true` = "yes")
and a confidence in `[0,1]`; one record per analyzed frame. -/
structure FrameRecord where
  frame_index : Nat
  original_timestamp : ℚ
  label : Bool
  confidence : ℚ
  deriving DecidableEq, Repr

/-- Modelled from the spec: the four post-processing parameters of the Event
Interval Constructor (`config.yaml`, section `post_processing`). -/
structure PostConfig where
  confidence_threshold : ℚ
  grouping_threshold : ℚ
  buffer_start : ℚ
  buffer_end : ℚ
  merge_gap : ℚ
  deriving DecidableEq, Repr

/-- Modelled from the spec: `EventInterval` with fields `start` and `end`. -/
structure EventInterval where
  start : ℚ
  «end» : ℚ
  deriving DecidableEq, Repr

/-- Modelled from the spec (§4.3 step 1): retain only records with label "yes"
and confidence at least `confidence_threshold`. -/
def retain (cfg : PostConfig) (r : FrameRecord) : Bool :=
  r.label && decide (cfg.confidence_threshold ≤ r.confidence)

/-- Modelled from the spec (§4.3 step 2): the clustering walk after the first
retained record.  A gap of more than `g` to the previous retained record's
timestamp starts a new cluster; a gap equal to `g` stays in the same cluster
(inclusive boundary). -/
def clusterAux (g : ℚ) (cur : List FrameRecord) (last : ℚ) :
    List FrameRecord → List (List FrameRecord)
  | [] => [cur.reverse]
  | r :: rs =>
    if r.original_timestamp - last ≤ g then
      clusterAux g (r :: cur) r.original_timestamp rs
    else
      cur.reverse :: clusterAux g [r] r.original_timestamp rs

/-- Modelled from the spec (§4.3 step 2): walk the retained, time-ordered
records and group them into clusters; a single retained record can form a
one-element cluster. -/
def clusterRecords (g : ℚ) : List FrameRecord → List (List FrameRecord)
  | [] => []
  | r :: rs => clusterAux g [r] r.original_timestamp rs

/-- Minimum of a list of rationals (0 on the empty list, which the
intervalization step never passes). -/
def listMin : List ℚ → ℚ
  | [] => 0
  | x :: xs => xs.foldl min x

/-- Maximum of a list of rationals (0 on the empty list, which the
intervalization step never passes). -/
def listMax : List ℚ → ℚ
  | [] => 0
  | x :: xs => xs.foldl max x

/-- Modelled from the spec: clamp a time to `[0, original_duration]`. -/
def clamp (D x : ℚ) : ℚ := max 0 (min x D)

/-- Modelled from the spec (§4.3 step 3): for a cluster, buffer the minimal and
maximal timestamps, clamp both to `[0, D]`, and discard the interval when it is
degenerate (`raw_end ≤ raw_start` after clamping). -/
def intervalize (cfg : PostConfig) (D : ℚ) (c : List FrameRecord) :
    Option EventInterval :=
  match c with
  | [] => none
  | _ :: _ =>
    let ts := c.map (·.original_timestamp)
    let s := clamp D (listMin ts - cfg.buffer_start)
    let e := clamp D (listMax ts + cfg.buffer_end)
    if e ≤ s then none else some ⟨s, e⟩

/-- Modelled from the spec (§4.3 step 4): left-to-right scan that merges the
next interval into the running one when its start is within `merge_gap` of the
running end; the merged end is the max of the two ends. -/
def mergeScan (g : ℚ) (running : EventInterval) :
    List EventInterval → List EventInterval
  | [] => [running]
  | i :: is =>
    if i.start - running.«end» ≤ g then
      mergeScan g ⟨running.start, max running.«end» i.«end»⟩ is
    else
      running :: mergeScan g i is

/-- Modelled from the spec (§4.3 step 4): merge a list of intervals. -/
def mergeIntervals (g : ℚ) : List EventInterval → List EventInterval
  | [] => []
  | i :: is => mergeScan g i is

/-- Modelled from the spec: sorting intervals ascending by `start` (the
explicit contract before the merge scan and in the Clip Assembler). -/
def sortIntervals (l : List EventInterval) : List EventInterval :=
  List.insertionSort (fun a b => a.start ≤ b.start) l

/-- Modelled from the spec (§4.3): the Event Interval Constructor — filter,
cluster, intervalize, sort, merge.  Total: an input with no retained record
yields `[]`, not an error. -/
def buildIntervals (cfg : PostConfig) (D : ℚ) (records : List FrameRecord) :
    List EventInterval :=
  mergeIntervals cfg.merge_gap
    (sortIntervals
      ((clusterRecords cfg.grouping_threshold
          (records.filter (retain cfg))).filterMap (intervalize cfg D)))

/-- Modelled from the spec (§7): the pipeline error taxonomy relevant to the
Timestamp Mapper. -/
inductive PipelineError where
  | InvalidMediaParameters
  deriving DecidableEq, Repr

/-- Modelled from the spec (§4.1): `original_timestamp = frame_index / target_fps`,
clamped to `[0, original_duration]`. -/
def originalTimestamp (fps D : ℚ) (i : Nat) : ℚ :=
  clamp D ((i : ℚ) / fps)

/-- Modelled from the spec (§4.1): the Timestamp Mapper fails with
`InvalidMediaParameters` when `target_fps ≤ 0` or `original_duration ≤ 0`;
otherwise it returns the clamped mapping. -/
def mkTimestampMap (fps D : ℚ) : Except PipelineError (Nat → ℚ) :=
  if fps ≤ 0 ∨ D ≤ 0 then Except.error PipelineError.InvalidMediaParameters
  else Except.ok (originalTimestamp fps D)

/-- Modelled from the spec: a clip is the extraction of one event interval from
a named source video. -/
structure Clip where
  source : String
  interval : EventInterval
  deriving DecidableEq, Repr

/-- Modelled from the spec (§4.4): extract one clip for an interval from the
original source. -/
def extractClip (src : String) (i : EventInterval) : Clip :=
  ⟨src, i⟩

/-- Modelled from the spec (§4.4): the Clip Assembler defensively re-sorts the
interval list ascending by `start`, extracts exactly one clip per interval, and
the highlight reel is their concatenation in that order. -/
def assembleReel (src : String) (intervals : List EventInterval) : List Clip :=
  (sortIntervals intervals).map (extractClip src)

/-- Embedded from `lib/highlight-processor-stack.ts`: one S3 bucket event
notification rule, with an event type and a key filter checked as a leading
piece of the object key (keys are modelled as character lists). -/
structure S3NotificationRule where
  eventType : String
  keyFilter : List Char
  deriving DecidableEq, Repr

/-- Embedded from `lib/highlight-processor-stack.ts` lines 183–187: the video
bucket has exactly one notification, `OBJECT_CREATED` filtered to keys under
`videos/`, targeting the trigger Lambda. -/
def videoBucketRules : List S3NotificationRule :=
  [⟨"OBJECT_CREATED", "videos/".toList⟩]

/-- Embedded from `video-processing/config.yaml` (`main.s3_output_prefix`):
the folder of the same bucket where the finished highlight reel is written. -/
def s3OutputFolder : List Char := "results".toList

/-- Key of an output object: the output folder, a slash, then the file name. -/
def resultKey (name : List Char) : List Char :=
  s3OutputFolder ++ '/' :: name

/-- An S3 object creation with the given key starts a pipeline run exactly when
some notification rule's key filter leads the key. -/
def triggersRun (key : List Char) : Bool :=
  videoBucketRules.any (fun rule => rule.keyFilter.isPrefixOf key)

/-- The shipped default post-processing configuration
(`video-processing/config.yaml`). -/
def defaultConfig : PostConfig :=
  ⟨0.845, 2.5, 1.5, 3.0, 3.5⟩

/-- The four FrameRecords of the spec's end-to-end example (analysis at 4 fps,
so the timestamps 8.0, 8.25, 8.5, 20.0 carry frame indices 32, 33, 34, 80). -/
def exampleRecords : List FrameRecord :=
  [⟨32, 8, true, 0.9⟩, ⟨33, 8.25, true, 0.9⟩, ⟨34, 8.5, true, 0.9⟩,
   ⟨80, 20, true, 0.9⟩]

/-- Well-formedness of an interval relative to an upper bound on the timeline. -/
def InBounds (B : ℚ) (i : EventInterval) : Prop :=
  0 ≤ i.start ∧ i.start < i.«end» ∧ i.«end» ≤ B

/-- Relation holding between consecutive merged intervals: both are proper and
the gap from the earlier end to the later start exceeds `g`. -/
def chainRel (g : ℚ) (a b : EventInterval) : Prop :=
  a.start < a.«end» ∧ b.start < b.«end» ∧ g < b.start - a.«end»

theorem clamp_nonneg (D x : ℚ) : 0 ≤ clamp D x :=
  le_max_left 0 _

theorem clamp_le (D x : ℚ) : clamp D x ≤ max 0 D :=
  max_le (le_max_left 0 D) (le_trans (min_le_right x D) (le_max_right 0 D))

theorem intervalize_inBounds (cfg : PostConfig) (D : ℚ) (c : List FrameRecord)
    (i : EventInterval) (h : intervalize cfg D c = some i) :
    InBounds (max 0 D) i := by
  cases c with
  | nil => simp [intervalize] at h
  | cons r rs =>
    simp only [intervalize] at h
    split at h
    · exact absurd h (by simp)
    · next hlt =>
      cases h
      exact ⟨clamp_nonneg _ _, not_le.mp hlt, clamp_le _ _⟩

theorem mergeScan_inBounds (g B : ℚ) (r : EventInterval) (l : List EventInterval)
    (hr : InBounds B r) (hl : ∀ i ∈ l, InBounds B i) :
    ∀ j ∈ mergeScan g r l, InBounds B j := by
  induction l generalizing r with
  | nil =>
    intro j hj
    simp only [mergeScan, List.mem_singleton] at hj
    exact hj ▸ hr
  | cons i is ih =>
    intro j hj
    simp only [mergeScan] at hj
    split at hj
    · exact ih ⟨r.start, max r.«end» i.«end»⟩
        ⟨hr.1, lt_of_lt_of_le hr.2.1 (le_max_left _ _),
          max_le hr.2.2 (hl i (List.mem_cons_self i is)).2.2⟩
        (fun k hk => hl k (List.mem_cons_of_mem i hk)) j hj
    · rcases List.mem_cons.mp hj with rfl | hj'
      · exact hr
      · exact ih i (hl i (List.mem_cons_self i is))
          (fun k hk => hl k (List.mem_cons_of_mem i hk)) j hj'

theorem mergeScan_head (g : ℚ) (r : EventInterval) (l : List EventInterval) :
    ∃ e t, mergeScan g r l = ⟨r.start, e⟩ :: t := by
  induction l generalizing r with
  | nil => exact ⟨r.«end», [], rfl⟩
  | cons i is ih =>
    by_cases h : i.start - r.«end» ≤ g
    · obtain ⟨e, t, ht⟩ := ih ⟨r.start, max r.«end» i.«end»⟩
      exact ⟨e, t, by simp only [mergeScan, if_pos h]; exact ht⟩
    · exact ⟨r.«end», mergeScan g i is, by simp only [mergeScan, if_neg h]⟩

theorem mergeScan_chain (g B : ℚ) (r : EventInterval) (l : List EventInterval)
    (hr : InBounds B r) (hl : ∀ i ∈ l, InBounds B i) :
    (mergeScan g r l).Chain' (chainRel g) := by
  induction l generalizing r with
  | nil => simp [mergeScan]
  | cons i is ih =>
    simp only [mergeScan]
    split
    · next h =>
      exact ih ⟨r.start, max r.«end» i.«end»⟩
        ⟨hr.1, lt_of_lt_of_le hr.2.1 (le_max_left _ _),
          max_le hr.2.2 (hl i (List.mem_cons_self i is)).2.2⟩
        (fun k hk => hl k (List.mem_cons_of_mem i hk))
    · next h =>
      have hi : InBounds B i := hl i (List.mem_cons_self i is)
      have hrest := ih i hi (fun k hk => hl k (List.mem_cons_of_mem i hk))
      obtain ⟨e, t, ht⟩ := mergeScan_head g i is
      have hhead : InBounds B ⟨i.start, e⟩ :=
        mergeScan_inBounds g B i is hi
          (fun k hk => hl k (List.mem_cons_of_mem i hk)) ⟨i.start, e⟩
          (by rw [ht]; exact List.mem_cons_self _ _)
      rw [ht]
      rw [ht] at hrest
      exact List.chain'_cons.mpr ⟨⟨hr.2.1, hhead.2.1, not_le.mp h⟩, hrest⟩

theorem mergeIntervals_inBounds (g B : ℚ) (l : List EventInterval)
    (hl : ∀ i ∈ l, InBounds B i) :
    ∀ j ∈ mergeIntervals g l, InBounds B j := by
  cases l with
  | nil => intro j hj; simp [mergeIntervals] at hj
  | cons i is =>
    exact mergeScan_inBounds g B i is (hl i (List.mem_cons_self i is))
      (fun k hk => hl k (List.mem_cons_of_mem i hk))

theorem mergeIntervals_chain (g B : ℚ) (l : List EventInterval)
    (hl : ∀ i ∈ l, InBounds B i) :
    (mergeIntervals g l).Chain' (chainRel g) := by
  cases l with
  | nil => simp [mergeIntervals]
  | cons i is =>
    exact mergeScan_chain g B i is (hl i (List.mem_cons_self i is))
      (fun k hk => hl k (List.mem_cons_of_mem i hk))

theorem mem_sortIntervals (l : List EventInterval) (i : EventInterval) :
    i ∈ sortIntervals l ↔ i ∈ l :=
  (List.perm_insertionSort _ l).mem_iff

theorem buildIntervals_inBounds (cfg : PostConfig) (D : ℚ)
    (records : List FrameRecord) :
    ∀ i ∈ buildIntervals cfg D records, InBounds (max 0 D) i := by
  apply mergeIntervals_inBounds
  intro i hi
  obtain ⟨c, hc, hci⟩ := List.mem_filterMap.mp ((mem_sortIntervals _ i).mp hi)
  exact intervalize_inBounds cfg D c i hci

theorem buildIntervals_chain (cfg : PostConfig) (D : ℚ)
    (records : List FrameRecord) :
    (buildIntervals cfg D records).Chain' (chainRel cfg.merge_gap) := by
  apply mergeIntervals_chain cfg.merge_gap (max 0 D)
  intro i hi
  obtain ⟨c, hc, hci⟩ := List.mem_filterMap.mp ((mem_sortIntervals _ i).mp hi)
  exact intervalize_inBounds cfg D c i hci

theorem chainRel_trans (g : ℚ) (hg : 0 ≤ g) :
    Transitive (chainRel g) := by
  intro a b c hab hbc
  obtain ⟨ha, hb, hgab⟩ := hab
  obtain ⟨hb', hc, hgbc⟩ := hbc
  exact ⟨ha, hc, by linarith⟩

theorem buildIntervals_pairwise (cfg : PostConfig) (D : ℚ)
    (records : List FrameRecord) (hg : 0 ≤ cfg.merge_gap) :
    (buildIntervals cfg D records).Pairwise (chainRel cfg.merge_gap) := by
  haveI : IsTrans EventInterval (chainRel cfg.merge_gap) :=
    ⟨fun a b c hab hbc => chainRel_trans cfg.merge_gap hg hab hbc⟩
  exact List.chain'_iff_pairwise.mp (buildIntervals_chain cfg D records)

/-- C1: for every FrameRecord sequence and every valid configuration
(`merge_gap ≥ 0`), the Event Interval Constructor's output is sorted
ascending by `start`, pairwise non-overlapping, and consecutive intervals are
separated by strictly more than `merge_gap`. -/
theorem eventIntervals_sorted_disjoint_gapped (cfg : PostConfig) (D : ℚ)
    (records : List FrameRecord) (hg : 0 ≤ cfg.merge_gap) :
    (buildIntervals cfg D records).Pairwise (fun a b => a.start < b.start) ∧
    (buildIntervals cfg D records).Pairwise (fun a b => a.«end» < b.start) ∧
    (buildIntervals cfg D records).Chain'
      (fun a b => cfg.merge_gap < b.start - a.«end») := by
  have hpw := buildIntervals_pairwise cfg D records hg
  have hch := buildIntervals_chain cfg D records
  refine ⟨hpw.imp ?_, hpw.imp ?_, hch.imp ?_⟩
  · intro a b h
    obtain ⟨h1, h2, h3⟩ := h
    linarith
  · intro a b h
    obtain ⟨h1, h2, h3⟩ := h
    linarith
  · intro a b h
    exact h.2.2

/-- Closed instance of `eventIntervals_sorted_disjoint_gapped` at the shipped
configuration and the spec's example records. -/
theorem eventIntervals_sorted_disjoint_gapped_witness :
    (buildIntervals defaultConfig 30 exampleRecords).Pairwise
      (fun a b => a.start < b.start) ∧
    (buildIntervals defaultConfig 30 exampleRecords).Pairwise
      (fun a b => a.«end» < b.start) ∧
    (buildIntervals defaultConfig 30 exampleRecords).Chain'
      (fun a b => defaultConfig.merge_gap < b.start - a.«end») :=
  eventIntervals_sorted_disjoint_gapped defaultConfig 30 exampleRecords
    (by norm_num [defaultConfig])

/-- C2: for every FrameRecord sequence and every valid configuration
(non-negative buffers, positive duration), every returned interval satisfies
`0 ≤ start < end ≤ original_duration`, and a cluster whose buffered interval
is degenerate after clamping (`raw_end ≤ raw_start`) is discarded. -/
theorem eventIntervals_within_bounds (cfg : PostConfig) (D : ℚ)
    (records : List FrameRecord) (hbs : 0 ≤ cfg.buffer_start)
    (hbe : 0 ≤ cfg.buffer_end) (hD : 0 < D) :
    (∀ i ∈ buildIntervals cfg D records,
        0 ≤ i.start ∧ i.start < i.«end» ∧ i.«end» ≤ D) ∧
    (∀ c : List FrameRecord,
        clamp D (listMax (c.map (·.original_timestamp)) + cfg.buffer_end) ≤
          clamp D (listMin (c.map (·.original_timestamp)) - cfg.buffer_start) →
        intervalize cfg D c = none) := by
  constructor
  · intro i hi
    have h := buildIntervals_inBounds cfg D records i hi
    rwa [InBounds, max_eq_right hD.le] at h
  · intro c hc
    cases c with
    | nil => rfl
    | cons r rs =>
      simp only [intervalize]
      exact if_pos hc

/-- Closed instance of `eventIntervals_within_bounds`: a single record whose
buffered interval collapses to the timeline's right edge is discarded. -/
theorem eventIntervals_within_bounds_witness :
    intervalize defaultConfig 30 [⟨160, 40, true, 0.9⟩] = none :=
  (eventIntervals_within_bounds defaultConfig 30 [⟨160, 40, true, 0.9⟩]
      (by norm_num [defaultConfig]) (by norm_num [defaultConfig])
      (by norm_num)).2
    [⟨160, 40, true, 0.9⟩]
    (by norm_num [listMin, listMax, clamp, defaultConfig])

/-- C3: on the spec's four example records with the shipped configuration and
any original duration of at least 23 seconds, the constructor returns exactly
`[6.5, 11.5]` then `[18.5, 23]`. -/
theorem endToEnd_example (D : ℚ) (hD : 23 ≤ D) :
    buildIntervals defaultConfig D exampleRecords =
      [⟨6.5, 11.5⟩, ⟨18.5, 23⟩] := by
  have h1 : min (13/2 : ℚ) D = 13/2 := min_eq_left (by linarith)
  have h2 : min (23/2 : ℚ) D = 23/2 := min_eq_left (by linarith)
  have h3 : min (37/2 : ℚ) D = 37/2 := min_eq_left (by linarith)
  have h4 : min (23 : ℚ) D = 23 := min_eq_left (by linarith)
  norm_num [exampleRecords, defaultConfig, buildIntervals, retain,
    List.filter_cons, clusterRecords, clusterAux, intervalize, listMin,
    listMax, clamp, sortIntervals, mergeIntervals, mergeScan,
    List.filterMap_cons, h1, h2, h3, h4]

/-- Closed instance of `endToEnd_example` at a 30-second original duration. -/
theorem endToEnd_example_witness :
    buildIntervals defaultConfig 30 exampleRecords =
      [⟨6.5, 11.5⟩, ⟨18.5, 23⟩] :=
  endToEnd_example 30 (by norm_num)

/-- C4: in the merge scan, two intervals whose gap is at most `merge_gap`
become one interval ending at the max of the two ends; a gap strictly greater
than `merge_gap` leaves them as two distinct intervals. -/
theorem merge_gap_rule (g : ℚ) (a b : EventInterval) :
    (b.start - a.«end» ≤ g →
      mergeIntervals g [a, b] = [⟨a.start, max a.«end» b.«end»⟩]) ∧
    (g < b.start - a.«end» →
      mergeIntervals g [a, b] = [a, b]) := by
  constructor
  · intro h
    simp only [mergeIntervals, mergeScan, if_pos h]
  · intro h
    simp only [mergeIntervals, mergeScan, if_neg (not_le.mpr h)]

/-- Closed instance of `merge_gap_rule`: with `merge_gap = 3.5`, intervals
`[6.5,11.5]` and `[13,15]` (gap 1.5) merge into one ending at 15, while
`[6.5,11.5]` and `[18.5,23]` (gap 7) stay two. -/
theorem merge_gap_rule_witness :
    mergeIntervals 3.5 [⟨6.5, 11.5⟩, ⟨13, 15⟩] =
      [⟨(6.5 : ℚ), max (11.5 : ℚ) 15⟩] ∧
    mergeIntervals 3.5 [⟨6.5, 11.5⟩, ⟨18.5, 23⟩] =
      [⟨6.5, 11.5⟩, ⟨18.5, 23⟩] :=
  ⟨(merge_gap_rule 3.5 ⟨6.5, 11.5⟩ ⟨13, 15⟩).1 (by norm_num),
   (merge_gap_rule 3.5 ⟨6.5, 11.5⟩ ⟨18.5, 23⟩).2 (by norm_num)⟩

/-- C5: in the clustering step, any timestamp gap at most the grouping
threshold — the boundary case of exact equality included — keeps two
consecutive retained records in one cluster, so a new cluster starts only when
the gap strictly exceeds the threshold; a gap strictly above it does start a
new cluster, and a single retained record forms a one-element cluster. -/
theorem cluster_boundary_inclusive (g : ℚ) (r1 r2 r : FrameRecord) :
    (r2.original_timestamp - r1.original_timestamp ≤ g →
      clusterRecords g [r1, r2] = [[r1, r2]]) ∧
    (g < r2.original_timestamp - r1.original_timestamp →
      clusterRecords g [r1, r2] = [[r1], [r2]]) ∧
    clusterRecords g [r] = [[r]] := by
  refine ⟨fun h => ?_, fun h => ?_, ?_⟩
  · simp [clusterRecords, clusterAux]
    linarith
  · simp [clusterRecords, clusterAux]
    linarith
  · simp [clusterRecords, clusterAux]

/-- Closed instance of `cluster_boundary_inclusive` at the shipped grouping
threshold 2.5: gap exactly 2.5 stays together, gap 3 splits, and a lone record
is its own cluster. -/
theorem cluster_boundary_inclusive_witness :
    clusterRecords 2.5 [⟨0, 0, true, 1⟩, ⟨10, 2.5, true, 1⟩] =
      [[⟨0, 0, true, 1⟩, ⟨10, 2.5, true, 1⟩]] ∧
    clusterRecords 2.5 [⟨0, 0, true, 1⟩, ⟨12, 3, true, 1⟩] =
      [[⟨0, 0, true, 1⟩], [⟨12, 3, true, 1⟩]] ∧
    clusterRecords 2.5 [⟨0, 0, true, 1⟩] = [[⟨0, 0, true, 1⟩]] :=
  ⟨(cluster_boundary_inclusive 2.5 ⟨0, 0, true, 1⟩ ⟨10, 2.5, true, 1⟩
      ⟨0, 0, true, 1⟩).1 (by norm_num),
   (cluster_boundary_inclusive 2.5 ⟨0, 0, true, 1⟩ ⟨12, 3, true, 1⟩
      ⟨0, 0, true, 1⟩).2.1 (by norm_num),
   (cluster_boundary_inclusive 2.5 ⟨0, 0, true, 1⟩ ⟨12, 3, true, 1⟩
      ⟨0, 0, true, 1⟩).2.2⟩

/-- C6: records failing the filter never influence the result — the
constructor's output on a sequence equals its output on the subsequence of
retained records. -/
theorem filtered_records_invisible (cfg : PostConfig) (D : ℚ)
    (records : List FrameRecord) :
    buildIntervals cfg D records =
      buildIntervals cfg D (records.filter (retain cfg)) := by
  have h : (records.filter (retain cfg)).filter (retain cfg) =
      records.filter (retain cfg) :=
    List.filter_eq_self.mpr (fun a ha => (List.mem_filter.mp ha).2)
  simp only [buildIntervals, h]

/-- C7: when no record passes the filter (the empty input included), the
constructor returns the empty interval list; since `buildIntervals` is a total
function into lists, this is an ordinary value, not an error. -/
theorem no_events_empty_output (cfg : PostConfig) (D : ℚ)
    (records : List FrameRecord) (h : records.filter (retain cfg) = []) :
    buildIntervals cfg D records = [] := by
  simp [buildIntervals, h, clusterRecords, sortIntervals, mergeIntervals]

/-- Closed instance of `no_events_empty_output`: a lone "no" record is
filtered out and the output is empty; the empty input also yields `[]`. -/
theorem no_events_empty_output_witness :
    buildIntervals defaultConfig 30 [⟨0, 1, false, 1⟩] = [] ∧
    buildIntervals defaultConfig 30 [] = [] :=
  ⟨no_events_empty_output defaultConfig 30 [⟨0, 1, false, 1⟩]
      (by norm_num [List.filter_cons, retain]),
   no_events_empty_output defaultConfig 30 [] rfl⟩

/-- C8 counterexample: with the valid parameters `target_fps = 4`,
`original_duration = 1` (the mapper does not fail), the frame indices 4 and 5
are both clamped to the duration, so the mapping is not strictly increasing at
every frame index. -/
theorem timestampMap_not_strictMono :
    mkTimestampMap 4 1 ≠ Except.error PipelineError.InvalidMediaParameters ∧
    4 < 5 ∧
    ¬ originalTimestamp 4 1 4 < originalTimestamp 4 1 5 := by
  refine ⟨?_, by norm_num, ?_⟩
  · simp only [mkTimestampMap]
    rw [if_neg (by norm_num)]
    exact fun h => Except.noConfusion h
  · norm_num [originalTimestamp, clamp]

/-- C8 (amended): the Timestamp Mapper computes
`clamp [0, original_duration] (frame_index / target_fps)` and fails with
`InvalidMediaParameters` exactly when `target_fps ≤ 0` or
`original_duration ≤ 0`; on valid parameters the mapping is strictly
increasing on the frame indices whose raw timestamp does not exceed the
original duration (indices past the end are clamped to the duration). -/
theorem timestampMap_spec (fps D : ℚ) (i j : Nat) :
    (mkTimestampMap fps D = Except.error PipelineError.InvalidMediaParameters
      ↔ fps ≤ 0 ∨ D ≤ 0) ∧
    (0 < fps → 0 < D →
      mkTimestampMap fps D = Except.ok (originalTimestamp fps D)) ∧
    (0 < fps → i < j → (j : ℚ) / fps ≤ D →
      originalTimestamp fps D i < originalTimestamp fps D j) := by
  refine ⟨?_, fun hf hD => ?_, fun hf hij hjD => ?_⟩
  · constructor
    · intro h
      by_contra hc
      push_neg at hc
      rw [mkTimestampMap, if_neg (by push_neg; exact ⟨hc.1, hc.2⟩)] at h
      exact Except.noConfusion h
    · intro h
      rw [mkTimestampMap, if_pos h]
  · rw [mkTimestampMap, if_neg (by push_neg; exact ⟨hf, hD⟩)]
  · have hij' : (i : ℚ) / fps < (j : ℚ) / fps := by
      apply div_lt_div_of_pos_right ?_ hf
      exact_mod_cast hij
    have h0i : (0 : ℚ) ≤ (i : ℚ) / fps :=
      div_nonneg (Nat.cast_nonneg i) hf.le
    have hiD : (i : ℚ) / fps ≤ D := le_trans hij'.le hjD
    unfold originalTimestamp clamp
    rw [min_eq_left hiD, min_eq_left hjD, max_eq_right h0i,
      max_eq_right (le_trans h0i hij'.le)]
    exact hij'

/-- Closed instance of `timestampMap_spec` at `target_fps = 4`,
`original_duration = 10`, frame indices 2 and 3. -/
theorem timestampMap_spec_witness :
    mkTimestampMap 4 10 = Except.ok (originalTimestamp 4 10) ∧
    originalTimestamp 4 10 2 < originalTimestamp 4 10 3 :=
  ⟨(timestampMap_spec 4 10 2 3).2.1 (by norm_num) (by norm_num),
   (timestampMap_spec 4 10 2 3).2.2 (by norm_num) (by norm_num) (by norm_num)⟩

instance : IsTotal EventInterval (fun a b => a.start ≤ b.start) :=
  ⟨fun a b => le_total a.start b.start⟩

instance : IsTrans EventInterval (fun a b => a.start ≤ b.start) :=
  ⟨fun _ _ _ h1 h2 => le_trans h1 h2⟩

/-- C9: the Clip Assembler emits exactly one clip per interval, in ascending
order of interval start whatever the input order; on the spec's two example
intervals it produces the clip of `[6.5, 11.5]` first, for either input
order. -/
theorem assembler_order (src : String) (l : List EventInterval) :
    (assembleReel src l).length = l.length ∧
    ((assembleReel src l).map Clip.interval).Perm l ∧
    ((assembleReel src l).map Clip.interval).Pairwise
      (fun a b => a.start ≤ b.start) ∧
    assembleReel src [⟨6.5, 11.5⟩, ⟨18.5, 23⟩] =
      [⟨src, ⟨6.5, 11.5⟩⟩, ⟨src, ⟨18.5, 23⟩⟩] ∧
    assembleReel src [⟨18.5, 23⟩, ⟨6.5, 11.5⟩] =
      [⟨src, ⟨6.5, 11.5⟩⟩, ⟨src, ⟨18.5, 23⟩⟩] := by
  have hmap : (assembleReel src l).map Clip.interval = sortIntervals l := by
    simp only [assembleReel, List.map_map]
    exact List.map_id _
  refine ⟨?_, ?_, ?_, ?_, ?_⟩
  · rw [assembleReel, List.length_map]
    exact (List.perm_insertionSort _ l).length_eq
  · rw [hmap]
    exact List.perm_insertionSort _ l
  · rw [hmap]
    exact List.sorted_insertionSort _ l
  · norm_num [assembleReel, sortIntervals, extractClip]
  · norm_num [assembleReel, sortIntervals, extractClip]

/-- C10: only object creations under the `videos/` key filter start a run,
and an output object written under the `results` folder never does — writing
the highlight reel cannot re-trigger the pipeline. -/
theorem trigger_only_videos :
    (∀ key : List Char,
      triggersRun key = true ↔ "videos/".toList.isPrefixOf key = true) ∧
    (∀ name : List Char, triggersRun (resultKey name) = false) := by
  constructor
  · intro key
    simp [triggersRun, videoBucketRules]
  · intro name
    rfl

/-- Closed instance of `trigger_only_videos`: the shipped output object
`results/highlights.mp4` does not trigger a run. -/
theorem trigger_only_videos_witness :
    triggersRun (resultKey "highlights.mp4".toList) = false :=
  trigger_only_videos.2 "highlights.mp4".toList

end HighlightReel
